import Mathlib

/-!
Verification development for the Python-UNO repository (src/main.py).

The source is a single Python file implementing a console UNO game.  This file
gives a shallow embedding of its data model and operations:

* Python card classes (`BaseUnoCard` and subclasses) become the `Card`
  structure: a kind tag (the class, with the number for `NumberedCard`)
  plus an optional colour.  Python `__eq__` (same class, same colour, and
  for numbered cards same number) is exactly structural equality on `Card`.
* Mutable game objects become the `GameState` structure; methods become
  functions `GameState → ... → GameState` (or `Option` where the Python
  code can raise).
* `random.choice` and all human prompts are modelled by an oracle: a
  function `Nat → Nat` consumed at an increasing counter.  Each decision
  point (random or prompted — both are a single external choice) reads one
  value.
* `sys.exit` on a win is modelled by an explicit `PlayRes.won` outcome that
  propagates up the call chain, and Python runtime errors (indexing an
  empty list, `random.choice` on an empty sequence) by `Option.none`.
-/

namespace Uno

/-- The four colours of `COLOUR_LIST`. -/
inductive Colour
  | Red
  | Yellow
  | Green
  | Blue
deriving DecidableEq

/-- The `COLOUR_LIST` constant, in source order. -/
def COLOUR_LIST : List Colour := [.Red, .Yellow, .Green, .Blue]

/-- The card's Python class, together with the number for `NumberedCard`. -/
inductive CardKind
  | numbered (number : Nat)
  | skip
  | drawTwo
  | reverse
  | drawFour
  | wild
deriving DecidableEq

/-- A card: its class/number tag and its `colour` attribute (`None` is
`none`).  Structural equality on this structure coincides with the Python
`__eq__` of the card classes (same class, same colour, same number). -/
structure Card where
  kind : CardKind
  colour : Option Colour
deriving DecidableEq

def Card.isWild (c : Card) : Bool :=
  match c.kind with
  | .wild => true
  | _ => false

def Card.isDrawFour (c : Card) : Bool :=
  match c.kind with
  | .drawFour => true
  | _ => false

def Card.isNumbered (c : Card) : Bool :=
  match c.kind with
  | .numbered _ => true
  | _ => false

def Card.isSkip (c : Card) : Bool :=
  match c.kind with
  | .skip => true
  | _ => false

def Card.isReverse (c : Card) : Bool :=
  match c.kind with
  | .reverse => true
  | _ => false

def Card.isDrawTwo (c : Card) : Bool :=
  match c.kind with
  | .drawTwo => true
  | _ => false

/-- The `number` attribute (`none` for non-numbered cards). -/
def Card.number? (c : Card) : Option Nat :=
  match c.kind with
  | .numbered n => some n
  | _ => none

/-- A `Player`: its number (the default names are `Player 1` … `Player n`,
so the name is modelled by the player number), the `human` flag and the
`hand` list. -/
structure PlayerSt where
  name : Nat
  human : Bool
  hand : List Card
deriving DecidableEq

/-- The mutable state of `UnoGame`: players, deck, pile, turn, spin and the
three rule flags. -/
structure GameState where
  players : List PlayerSt
  deck : List Card
  pile : List Card
  turn : Int
  spin : Int
  jump_in : Bool
  stacking : Bool
  seven_zero : Bool
deriving DecidableEq

/-- `UnoGame.next_turn`: `turn + spin`, wrapping to `1` above the player
count and to the player count at `0`. -/
def next_turn (g : GameState) : Int :=
  let t := g.turn + g.spin
  if t > (g.players.length : Int) then 1
  else if t = 0 then (g.players.length : Int)
  else t

/-- `UnoGame.player_from_turn`: the first player whose name matches the
turn number, as an index into `players` (the Python code searches by the
substring `str(turn) in player.name`, which for the default names
`Player 1` … `Player n`, `n ≤ 10`, selects exactly the player with that
number).  `none` when no player matches (Python returns `None`). -/
def playerIdxFromTurn (g : GameState) (t : Int) : Option Nat :=
  g.players.findIdx? (fun p => (p.name : Int) = t)

/-! ### `Player.playable_cards` -/

/-- The `if/elif` chain of the first loop of `Player.playable_cards`
(everything except the leading `WildCard` test): whether it appends
`card`. -/
def firstPassChain (stacking : Bool) (current c : Card) : Bool :=
  if c.isDrawFour && current.isDrawFour && stacking then true
  else if c.isNumbered && current.isNumbered && c.number? == current.number? then true
  else if c.colour == current.colour && !(c.isWild || c.isDrawFour) then true
  else (c.isSkip && current.isSkip) || (c.isReverse && current.isReverse) ||
    (c.isDrawTwo && current.isDrawTwo)

/-- One iteration of the first loop of `Player.playable_cards`. -/
def playableStep (stacking : Bool) (current : Card) (acc : List Card) (c : Card) :
    List Card :=
  let acc := if c.isWild then acc ++ [c] else acc
  if firstPassChain stacking current c then acc ++ [c] else acc

/-- `Player.playable_cards`: the first loop collects matches, the second
loop appends a `DrawFourCard` as fallback while the collected list is
still empty (`current` is `self.game.top_pile_card`). -/
def playable_cards (hand : List Card) (current : Card) (stacking : Bool) :
    List Card :=
  let first := hand.foldl (fun acc c => playableStep stacking current acc c) []
  hand.foldl (fun acc c => if acc.isEmpty && c.isDrawFour then acc ++ [c] else acc) first

/-! ### Deck / pile lifecycle -/

/-- The reshuffle at the end of `UnoGame.deal_card`: all pile cards except
the top one are popped from the front of the pile and appended to the
deck (`for _ in range(len(self.pile) - 1)`). -/
def reshuffle (g : GameState) : GameState :=
  { g with
    deck := g.deck ++ g.pile.dropLast
    pile := g.pile.drop (g.pile.length - 1) }

/-- `UnoGame.deal_card`: draw a uniformly random card from the deck
(`r` is the random draw, taken modulo the deck size), move it to the
player's hand, then reshuffle if the deck just became empty.  `none` when
the deck is empty (`random.choice` raises) or the player does not exist. -/
def deal_card (g : GameState) (pidx r : Nat) : Option (GameState × Card) :=
  match g.deck.get? (r % g.deck.length), g.players.get? pidx with
  | some card, some p =>
    -- `self.deck.remove(card)` removes the first card equal to the drawn one.
    let deck' := g.deck.erase card
    let g' : GameState :=
      { g with
        deck := deck'
        players := g.players.set pidx { p with hand := p.hand ++ [card] } }
    some (if deck'.isEmpty then reshuffle g' else g', card)
  | _, _ => none

/-- The reseeding branch of the `UnoGame.top_pile_card` property: with an
empty pile, retry `random.choice(self.deck)` until a `NumberedCard` is
found and move it to the pile.  The retry loop is modelled as a single
uniform choice (`r`) among the numbered cards of the deck; `none` when the
deck holds no numbered card (the Python loop would never terminate). -/
def seedPile (g : GameState) (r : Nat) : Option (GameState × Card) :=
  let nums := g.deck.filter (·.isNumbered)
  match nums.get? (r % nums.length) with
  | none => none
  | some c => some ({ g with deck := g.deck.erase c, pile := g.pile ++ [c] }, c)

/-! ### Hand-moving operations -/

/-- The state mutation at the top of `UnoGame.play_card`:
`player.hand.remove(card)` (first card equal to `card`) followed by
`self.pile.append(card)`. -/
def playMoveFn (g : GameState) (pidx : Nat) (card : Card) : GameState :=
  match g.players.get? pidx with
  | none => g
  | some p =>
    { g with
      players := g.players.set pidx { p with hand := p.hand.erase card }
      pile := g.pile ++ [card] }

/-- The hand swap of `NumberedCard.play` for a 7: the two players exchange
their (copied) hands. -/
def swapHands (g : GameState) (i j : Nat) : GameState :=
  match g.players.get? i, g.players.get? j with
  | some pi, some pj =>
    { g with
      players := (g.players.set i { pi with hand := pj.hand }).set j
        { pj with hand := pi.hand } }
  | _, _ => g

/-- The hand rotation of `NumberedCard.play` for a 0, on the snapshot list
of hands.  `spin = 1`: `player_list[i+1].hand = hands[i]` and
`player_list[0].hand = hands[-1]`, i.e. the last hand moves to the front;
any other spin: `player_list[i].hand = hands[i+1]` and
`player_list[-1].hand = hands[0]`, i.e. the first hand moves to the
back. -/
def rotateOne (spin : Int) (hands : List (List Card)) : List (List Card) :=
  if spin = 1 then hands.drop (hands.length - 1) ++ hands.dropLast
  else hands.drop 1 ++ hands.take 1

/-- The full hand rotation of `NumberedCard.play` for a 0 applied to the
game state: every player receives the rotated hand at their position. -/
def rotateHands (g : GameState) : GameState :=
  { g with
    players := List.zipWith (fun p h => { p with hand := h }) g.players
      (rotateOne g.spin (g.players.map (·.hand))) }

/-! ### Colour mutations -/

/-- Setting the `colour` attribute of the card object at position `idx` of
the pile (the colour choice of `WildCard.play` / `DrawFourCard.play`, and
the starting-card colour assignment in `run_game`). -/
def setPileColour (g : GameState) (idx : Nat) (col : Colour) : GameState :=
  match g.pile.get? idx with
  | none => g
  | some c => { g with pile := g.pile.set idx { c with colour := some col } }

/-- `card.colour = None` for a wild or draw-four card (the reset applied in
`run_game` to the current player's hand). -/
def resetCardColour (c : Card) : Card :=
  if c.isWild || c.isDrawFour then { c with colour := none } else c

/-- The colour reset loop at the top of the `run_game` turn: every wild or
draw-four card in player `i`'s hand loses its colour. -/
def resetHandColours (g : GameState) (i : Nat) : GameState :=
  match g.players.get? i with
  | none => g
  | some p =>
    { g with players := g.players.set i { p with hand := p.hand.map resetCardColour } }

/-! ### Initial deck and players -/

/-- The cards `UnoGame.init_cards` appends for one colour, in source
order: a wild, a draw four, twice (numbered 1–9, skip, draw two, reverse),
then a numbered 0. -/
def colourCards (col : Colour) : List Card :=
  [⟨.wild, none⟩, ⟨.drawFour, none⟩] ++
    ((List.range 9).map (fun i => ⟨.numbered (i + 1), some col⟩) ++
      [⟨.skip, some col⟩, ⟨.drawTwo, some col⟩, ⟨.reverse, some col⟩]) ++
    ((List.range 9).map (fun i => ⟨.numbered (i + 1), some col⟩) ++
      [⟨.skip, some col⟩, ⟨.drawTwo, some col⟩, ⟨.reverse, some col⟩]) ++
    [⟨.numbered 0, some col⟩]

/-- The full 108-card deck built by `UnoGame.init_cards`. -/
def fullDeck : List Card := COLOUR_LIST.flatMap colourCards

/-- The player list built by the `new_game` branch of `UnoGame.__init__`:
`h` human players then `n - h` automated ones, named `Player 1` …
`Player n`. -/
def mkPlayers (n h : Nat) : List PlayerSt :=
  (List.range n).map (fun i => ⟨i + 1, decide (i < h), []⟩)

/-- A newly initialised game, before the initial deal (the 7-cards-each
deal of `init_cards` consists of `deal_card` steps). -/
def initGame (n h : Nat) (ji st sz : Bool) : GameState :=
  { players := mkPlayers n h
    deck := fullDeck
    pile := []
    turn := 1
    spin := 1
    jump_in := ji
    stacking := st
    seven_zero := sz }

/-! ### The resolution engine

All randomness and all human prompts are served by the oracle `rnd`,
read at the counter `k` which advances by one per decision.  `log`
records, for each jump-in offer made, the name of the player offered
(modelling the `jump in?` prompt of `play_jump_in`). -/

/-- A running game: state plus decision oracle and offer log. -/
structure Env where
  g : GameState
  rnd : Nat → Nat
  k : Nat
  log : List Nat

/-- `deal_card` inside the engine: the random draw is the next oracle
value. -/
def dealE (s : Env) (pidx : Nat) : Option (Env × Card) :=
  match deal_card s.g pidx (s.rnd s.k) with
  | none => none
  | some (g', c) => some ({ s with g := g', k := s.k + 1 }, c)

/-- `n` consecutive `deal_card` calls to the same player (the draw loops
of the `activate` methods). -/
def dealN : Nat → Env → Nat → Option Env
  | 0, s, _ => some s
  | m + 1, s, pidx =>
    match dealE s pidx with
    | none => none
    | some (s', _) => dealN m s' pidx

/-- `COLOUR_LIST` indexed by an oracle value (`random.choice(COLOUR_LIST)`
or the prompted colour choice). -/
def colourOfNat (r : Nat) : Colour :=
  match r % 4 with
  | 0 => .Red
  | 1 => .Yellow
  | 2 => .Green
  | _ => .Blue

/-- The colour choice shared by `WildCard.play` and `DrawFourCard.play`:
the current player (human or automated — either way one external choice)
picks a colour, which is written onto the played card, sitting at pile
position `pileIdx`.  `none` when `player_from_turn` finds nobody (the
Python code would crash reading `.human` of `None`). -/
def chooseColour (s : Env) (pileIdx : Nat) : Option Env :=
  match playerIdxFromTurn s.g s.g.turn with
  | none => none
  | some _ =>
    some { s with
      g := setPileColour s.g pileIdx (colourOfNat (s.rnd s.k))
      k := s.k + 1 }

/-- The accumulated-stack count of `DrawTwoCard.activate`: `count = 1`,
then, if stacking is on, walk `reversed(self.pile[:-1])` while the cards
are draw twos. -/
def drawTwoStackCount (g : GameState) : Nat :=
  1 + (if g.stacking then (g.pile.dropLast.reverse.takeWhile (·.isDrawTwo)).length else 0)

/-- The accumulated-stack count of `DrawFourCard.activate`. -/
def drawFourStackCount (g : GameState) : Nat :=
  1 + (if g.stacking then (g.pile.dropLast.reverse.takeWhile (·.isDrawFour)).length else 0)

/-- `DrawTwoCard.activate`: announces `2 * count` cards but the draw loop
is `for _ in range(2)` — exactly two `deal_card` calls — then the turn
advances past the penalised player. -/
def activateDrawTwo (s : Env) (pidx : Nat) : Option Env :=
  match dealN 2 s pidx with
  | none => none
  | some s' => some { s' with g := { s'.g with turn := next_turn s'.g } }

/-- `DrawFourCard.activate`: `for _ in range(4 * count)` `deal_card`
calls, then the turn advances past the penalised player. -/
def activateDrawFour (s : Env) (pidx : Nat) : Option Env :=
  match dealN (4 * drawFourStackCount s.g) s pidx with
  | none => none
  | some s' => some { s' with g := { s'.g with turn := next_turn s'.g } }

/-- `DrawTwoCard.play`: without stacking, activate on the next player;
with stacking, activate only if that player holds no draw two. -/
def drawTwoPlay (s : Env) : Option Env :=
  match playerIdxFromTurn s.g (next_turn s.g) with
  | none => none
  | some ni =>
    match s.g.players.get? ni with
    | none => none
    | some p =>
      if s.g.stacking = false then activateDrawTwo s ni
      else if p.hand.any (·.isDrawTwo) then some s
      else activateDrawTwo s ni

/-- `DrawFourCard.play`: colour choice first, then the same
stacking-deferral logic as `DrawTwoCard.play` with draw fours. -/
def drawFourPlay (s : Env) (pileIdx : Nat) : Option Env :=
  match chooseColour s pileIdx with
  | none => none
  | some s₁ =>
    match playerIdxFromTurn s₁.g (next_turn s₁.g) with
    | none => none
    | some ni =>
      match s₁.g.players.get? ni with
      | none => none
      | some p =>
        if s₁.g.stacking = false then activateDrawFour s₁ ni
        else if p.hand.any (·.isDrawFour) then some s₁
        else activateDrawFour s₁ ni

/-- `NumberedCard.play`: with seven-zero enabled, a 7 swaps the current
player's hand with a chosen other player's (human choice or
`random.choice` — one oracle value either way), and a 0 rotates all hands
in the direction of the current spin.  Other numbers do nothing. -/
def numberedPlay (s : Env) (n : Nat) : Option Env :=
  if s.g.seven_zero then
    match playerIdxFromTurn s.g s.g.turn with
    | none => none
    | some ci =>
      if n = 7 then
        let others := (List.range s.g.players.length).filter (· ≠ ci)
        match others.get? (s.rnd s.k % others.length) with
        | none => none
        | some ti => some { s with g := swapHands s.g ci ti, k := s.k + 1 }
      else if n = 0 then some { s with g := rotateHands s.g }
      else some s
  else some s

/-- `card.play()` dispatch over the card classes.  `pileIdx` is the pile
position at which the played card object sits (colour mutation targets
that object). -/
def card_play (s : Env) (card : Card) (pileIdx : Nat) : Option Env :=
  match card.kind with
  | .numbered n => numberedPlay s n
  | .skip => some { s with g := { s.g with turn := next_turn s.g } }
  | .reverse => some { s with g := { s.g with spin := s.g.spin * -1 } }
  | .drawTwo => drawTwoPlay s
  | .drawFour => drawFourPlay s pileIdx
  | .wild => chooseColour s pileIdx

/-- Outcome of `play_card`: the game was won (`sys.exit`) or play
continues. -/
inductive PlayRes
  | won (s : Env)
  | cont (s : Env)

/-- Outcome of scanning one player's hand for jump-in offers: move to the
next player with the (possibly updated) environment, or the game ended
inside a nested play. -/
inductive InnerRes
  | next (s : Env)
  | stop (s : Env)

/-- The inner loop of `UnoGame.play_jump_in` over one player's hand
(`playF` is the recursive `play_card` reference, taken as a parameter so
that every engine function is structurally recursive).  Wild and
draw-four cards are never jumped in on; every card equal to the played
one triggers an offer (one oracle value; the offered player's name is
logged).  On acceptance the turn cursor is set to `int(player.name[-1])`
(the last digit of the name) and the matching card is played recursively;
the `break` then stops scanning this hand. -/
def jumpInHand (playF : Env → Nat → Card → Option PlayRes) (card : Card)
    (pileIdx i nm : Nat) : Env → List Card → Option InnerRes
  | s, [] => some (.next s)
  | s, pc :: rest =>
    if card.isWild || card.isDrawFour then jumpInHand playF card pileIdx i nm s rest
    else if pc = card then
      let accept := s.rnd s.k % 2 = 1
      let s₁ : Env := { s with k := s.k + 1, log := s.log ++ [nm] }
      if accept then
        let s₂ : Env := { s₁ with g := { s₁.g with turn := ((nm % 10 : Nat) : Int) } }
        match playF s₂ i pc with
        | none => none
        | some (.won w) => some (.stop w)
        | some (.cont c) => some (.next c)
      else jumpInHand playF card pileIdx i nm s₁ rest
    else jumpInHand playF card pileIdx i nm s rest

/-- The outer loop of `UnoGame.play_jump_in` over `self.player_list`
(`ps` are the remaining player indices).  A player is skipped when they
are the `next_turn` player and the played card is a `SkipCard`.  When the
loop finishes, the `for/else` `else` branch runs `card.play()` — note the
inner `break` never leaves this outer loop, so the `else` always runs. -/
def jumpInLoop (playF : Env → Nat → Card → Option PlayRes) (card : Card)
    (pileIdx : Nat) : Env → List Nat → Option PlayRes
  | s, [] => (card_play s card pileIdx).map .cont
  | s, i :: rest =>
    if playerIdxFromTurn s.g (next_turn s.g) = some i ∧ card.isSkip = true then
      jumpInLoop playF card pileIdx s rest
    else
      match s.g.players.get? i with
      | none => jumpInLoop playF card pileIdx s rest
      | some p =>
        match jumpInHand playF card pileIdx i p.name s p.hand with
        | none => none
        | some (.next s') => jumpInLoop playF card pileIdx s' rest
        | some (.stop w) => some (.won w)

/-- `UnoGame.play_card`: remove the card from the hand, push it on the
pile, exit with a win if the hand is now empty, otherwise resolve through
`play_jump_in` (when jump-in is on) or the card's own `play`.  `fuel`
bounds the jump-in recursion depth (the Python code recurses without a
bound); `none` means fuel ran out or a runtime error occurred. -/
def play_card : Nat → Env → Nat → Card → Option PlayRes
  | 0, _, _, _ => none
  | fuel + 1, s, pidx, card =>
    match s.g.players.get? pidx with
    | none => none
    | some p =>
      let hand' := p.hand.erase card
      let g' : GameState :=
        { s.g with
          players := s.g.players.set pidx { p with hand := hand' }
          pile := s.g.pile ++ [card] }
      let s' : Env := { s with g := g' }
      if hand'.length = 0 then some (.won s')
      else
        let pileIdx := g'.pile.length - 1
        if g'.jump_in then
          jumpInLoop (play_card fuel) card pileIdx s' (List.range g'.players.length)
        else (card_play s' card pileIdx).map .cont


/-- The `UnoGame.top_pile_card` property inside the engine: the last pile
card, or — with an empty pile — the reseeding branch (`seedPile`) fed by
the oracle. -/
def top_pile_card (s : Env) : Option (Env × Card) :=
  match s.g.pile.getLast? with
  | some c => some (s, c)
  | none =>
    match seedPile s.g (s.rnd s.k) with
    | none => none
    | some (g', c) => some ({ s with g := g', k := s.k + 1 }, c)

/-- One iteration of the `while True` loop of `UnoGame.run_game`: find the
current player, reset wild colours in their hand, compute their playable
cards; if none, draw one card and re-test the *same local list*
(`if playable_cards:` — still the empty list computed before the draw, so
the freshly drawn card is never played) else play a chosen playable card;
finally advance the turn.  The choice of which playable card to play
(human prompt repeated until legal, or `random.choice`) is one oracle
value indexing the playable list. -/
def runTurn (fuel : Nat) (s : Env) : Option PlayRes :=
  match playerIdxFromTurn s.g s.g.turn with
  | none => none
  | some ci =>
    let s := { s with g := resetHandColours s.g ci }
    match s.g.players.get? ci with
    | none => none
    | some p =>
      match top_pile_card s with
      | none => none
      | some (s, current) =>
        let pc := playable_cards p.hand current s.g.stacking
        if pc.isEmpty then
          match dealE s ci with
          | none => none
          | some (s', _newCard) =>
            match pc with
            | c0 :: _ =>
              -- dead branch: `pc` is the stale empty list, so this never runs
              match play_card fuel s' ci c0 with
              | none => none
              | some (.won w) => some (.won w)
              | some (.cont s₂) =>
                some (.cont { s₂ with g := { s₂.g with turn := next_turn s₂.g } })
            | [] =>
              some (.cont { s' with g := { s'.g with turn := next_turn s'.g } })
        else
          match pc.get? (s.rnd s.k % pc.length) with
          | none => none
          | some chosen =>
            let s := { s with k := s.k + 1 }
            match play_card fuel s ci chosen with
            | none => none
            | some (.won w) => some (.won w)
            | some (.cont s₂) =>
              some (.cont { s₂ with g := { s₂.g with turn := next_turn s₂.g } })

/-! ### Persistence (`save_game` / loading `__init__` branch)

`repr(card)` is `ClassName:colour` (plus `:number` for a numbered card),
and `BaseUnoCard.from_string` splits the string on `:` and dispatches on
the class-name component.  The component strings that occur — class
names, colour names, `None`, and decimal numbers — are pairwise distinct
and colon-free, so the split components are modelled directly as a list
of tokens (`Comp`), with the decimal rendering of the number folded into
the `num` token (Python's `int` is exactly inverse to `str` on natural
numbers). -/

/-- One `:`-separated component of a card `repr` string. -/
inductive Comp
  | numberedCard
  | skipCard
  | drawTwoCard
  | reverseCard
  | drawFourCard
  | wildCard
  | red
  | yellow
  | green
  | blue
  | noneStr
  | num (n : Nat)
deriving DecidableEq

/-- The component rendering of a colour attribute (`f'{self.colour}'`,
where `None` prints as `None`). -/
def colourComp : Option Colour → Comp
  | some .Red => .red
  | some .Yellow => .yellow
  | some .Green => .green
  | some .Blue => .blue
  | none => .noneStr

/-- Reading a colour component back (the colour string is passed to the
card constructor unchecked; only genuine colour names occur in states the
program writes, so other tokens map to `none` = parse failure). -/
def compColour : Comp → Option Colour
  | .red => some .Red
  | .yellow => some .Yellow
  | .green => some .Green
  | .blue => some .Blue
  | _ => none

/-- `repr(card)`: `ClassName:colour` with `:number` appended for a
numbered card. -/
def cardRepr (c : Card) : List Comp :=
  match c.kind with
  | .numbered n => [.numberedCard, colourComp c.colour, .num n]
  | .skip => [.skipCard, colourComp c.colour]
  | .drawTwo => [.drawTwoCard, colourComp c.colour]
  | .reverse => [.reverseCard, colourComp c.colour]
  | .drawFour => [.drawFourCard, colourComp c.colour]
  | .wild => [.wildCard, colourComp c.colour]

/-- `BaseUnoCard.from_string`: dispatch on the class-name component.  A
`NumberedCard` is rebuilt from its colour and number components; a
`DrawFourCard` or `WildCard` is rebuilt by its bare constructor — its
colour component is ignored and the colour comes back `None`; the
remaining classes are rebuilt from their colour component. -/
def from_string (l : List Comp) : Option Card :=
  match l with
  | [.numberedCard, cc, .num n] =>
    match compColour cc with
    | some col => some ⟨.numbered n, some col⟩
    | none => none
  | [.drawFourCard, _] => some ⟨.drawFour, none⟩
  | [.wildCard, _] => some ⟨.wild, none⟩
  | [.skipCard, cc] =>
    match compColour cc with
    | some col => some ⟨.skip, some col⟩
    | none => none
  | [.drawTwoCard, cc] =>
    match compColour cc with
    | some col => some ⟨.drawTwo, some col⟩
    | none => none
  | [.reverseCard, cc] =>
    match compColour cc with
    | some col => some ⟨.reverse, some col⟩
    | none => none
  | _ => none

/-- One player's entry in the save file: the name key (`Player i`,
modelled by the number), the `human` flag and the card strings. -/
structure SavedPlayer where
  name : Nat
  human : Bool
  cards : List (List Comp)
deriving DecidableEq

/-- The dictionary written by `UnoGame.save_game`. -/
structure SavedGame where
  deck : List (List Comp)
  pile : List (List Comp)
  turn : Int
  spin : Int
  jump_in : Bool
  stacking : Bool
  seven_zero : Bool
  players : List SavedPlayer
deriving DecidableEq

/-- `UnoGame.save_game`: serialize deck, pile, scalars and each player's
hand. -/
def save_game (g : GameState) : SavedGame :=
  { deck := g.deck.map cardRepr
    pile := g.pile.map cardRepr
    turn := g.turn
    spin := g.spin
    jump_in := g.jump_in
    stacking := g.stacking
    seven_zero := g.seven_zero
    players := g.players.map (fun p => ⟨p.name, p.human, p.hand.map cardRepr⟩) }

/-- Parse a list of card strings with `from_string`; `none` when any
fails. -/
def parseCards : List (List Comp) → Option (List Card)
  | [] => some []
  | r :: t =>
    match from_string r, parseCards t with
    | some c, some cs => some (c :: cs)
    | _, _ => none

/-- Rebuild the player entries in file order. -/
def parsePlayers : List SavedPlayer → Option (List PlayerSt)
  | [] => some []
  | sp :: t =>
    match parseCards sp.cards, parsePlayers t with
    | some h, some ps => some (PlayerSt.mk sp.name sp.human h :: ps)
    | _, _ => none

/-- The loading branch of `UnoGame.__init__`: rebuild every player (name,
`human` flag, hand parsed with `from_string`), then deck, pile, scalars
and flags.  `none` when any card string fails to parse. -/
def load_game (sg : SavedGame) : Option GameState :=
  match parsePlayers sg.players, parseCards sg.deck, parseCards sg.pile with
  | some players, some deck, some pile =>
    some
      { players := players
        deck := deck
        pile := pile
        turn := sg.turn
        spin := sg.spin
        jump_in := sg.jump_in
        stacking := sg.stacking
        seven_zero := sg.seven_zero }
  | _, _, _ => none

/-- What the round trip actually preserves: every card keeps its kind and
number, but a wild or draw-four card comes back with no colour. -/
def stripCard (c : Card) : Card :=
  match c.kind with
  | .drawFour => { c with colour := none }
  | .wild => { c with colour := none }
  | _ => c

/-- `stripCard` applied to every card of the state. -/
def stripGame (g : GameState) : GameState :=
  { g with
    deck := g.deck.map stripCard
    pile := g.pile.map stripCard
    players := g.players.map (fun p => { p with hand := p.hand.map stripCard }) }

/-! ### Reachability

One relation collecting every state mutation the program performs:
the six card-moving operations (dealing — with its embedded reshuffle —,
the play move, pile seeding, the seven swap, the zero rotation, and a
standalone reshuffle), together with the card-preserving mutations
(colour writes and resets, turn and spin updates). -/

/-- One program step on the game state. -/
inductive Step : GameState → GameState → Prop
  | deal (g : GameState) (pidx r : Nat) (g' : GameState) (c : Card)
      (h : deal_card g pidx r = some (g', c)) : Step g g'
  | playMove (g : GameState) (pidx : Nat) (p : PlayerSt) (card : Card)
      (hp : g.players.get? pidx = some p) (hc : card ∈ p.hand) :
      Step g (playMoveFn g pidx card)
  | seed (g : GameState) (r : Nat) (g' : GameState) (c : Card)
      (h : seedPile g r = some (g', c)) : Step g g'
  | reshuffleStep (g : GameState) : Step g (reshuffle g)
  | swap (g : GameState) (i j : Nat) : Step g (swapHands g i j)
  | rotate (g : GameState) : Step g (rotateHands g)
  | setColour (g : GameState) (idx : Nat) (col : Colour) :
      Step g (setPileColour g idx col)
  | resetCols (g : GameState) (i : Nat) : Step g (resetHandColours g i)
  | setTurn (g : GameState) (t : Int) : Step g { g with turn := t }
  | setSpin (g : GameState) (sp : Int) : Step g { g with spin := sp }

/-- States reachable from a newly initialised `n`-player game. -/
def Reachable (n h : Nat) (ji st sz : Bool) (g : GameState) : Prop :=
  Relation.ReflTransGen Step (initGame n h ji st sz) g

/-- The multiset of all cards of a state: deck, pile and every hand. -/
def cardsM (g : GameState) : Multiset Card :=
  (g.deck : Multiset Card) + (g.pile : Multiset Card) +
    (g.players.map (fun p => (p.hand : Multiset Card))).sum

/-- `|Deck| + |Pile| + Σ|Hand_i|`. -/
def totalCards (g : GameState) : Nat :=
  g.deck.length + g.pile.length + (g.players.map (fun p => p.hand.length)).sum

/-! ## Lemmas about `playable_cards` -/

theorem isDrawFour_iff (c : Card) : c.isDrawFour = true ↔ c.kind = .drawFour := by
  cases c with
  | mk k col => cases k <;> simp [Card.isDrawFour]

theorem isWild_firstPassChain_false (st : Bool) (cur c : Card) (h : c.isWild = true) :
    firstPassChain st cur c = false := by
  cases c with
  | mk k col =>
    cases k <;> simp_all [Card.isWild, firstPassChain, Card.isDrawFour, Card.isNumbered,
      Card.isSkip, Card.isReverse, Card.isDrawTwo]

theorem playableStep_eq (st : Bool) (cur : Card) (acc : List Card) (c : Card) :
    playableStep st cur acc c =
      acc ++ (if c.isWild || firstPassChain st cur c then [c] else []) := by
  unfold playableStep
  by_cases hw : c.isWild = true
  · simp [hw, isWild_firstPassChain_false st cur c hw]
  · simp only [Bool.not_eq_true] at hw
    simp [hw]
    split <;> simp_all

theorem foldl_playableStep (st : Bool) (cur : Card) :
    ∀ (hand acc : List Card),
      hand.foldl (fun a c => playableStep st cur a c) acc =
        acc ++ hand.filter (fun c => c.isWild || firstPassChain st cur c) := by
  intro hand
  induction hand with
  | nil => simp
  | cons c t ih =>
    intro acc
    rw [List.foldl_cons, playableStep_eq, ih, List.filter_cons]
    cases h : (c.isWild || firstPassChain st cur c) <;> simp [h]

theorem foldl_fallback_of_ne_nil :
    ∀ (hand acc : List Card), acc ≠ [] →
      hand.foldl (fun a c => if a.isEmpty && c.isDrawFour then a ++ [c] else a) acc = acc := by
  intro hand
  induction hand with
  | nil => intro acc _; rfl
  | cons c t ih =>
    intro acc ha
    rw [List.foldl_cons]
    have : acc.isEmpty = false := by
      cases acc with
      | nil => exact absurd rfl ha
      | cons x xs => rfl
    have e : (if (acc.isEmpty && c.isDrawFour) = true then acc ++ [c] else acc) = acc := by
      simp [this]
    rw [e]
    exact ih acc ha

theorem foldl_fallback_nil :
    ∀ hand : List Card,
      hand.foldl (fun a c => if a.isEmpty && c.isDrawFour then a ++ [c] else a) [] =
        (hand.find? (·.isDrawFour)).elim [] (fun c => [c]) := by
  intro hand
  induction hand with
  | nil => rfl
  | cons c t ih =>
    cases h : c.isDrawFour with
    | true =>
      have e : List.foldl (fun a c => if a.isEmpty && c.isDrawFour then a ++ [c] else a)
          ([] : List Card) (c :: t) =
          List.foldl (fun a c => if a.isEmpty && c.isDrawFour then a ++ [c] else a) [c] t := by
        rw [List.foldl_cons]; congr 1; simp [h]
      rw [e, foldl_fallback_of_ne_nil t [c] (by simp), List.find?_cons_of_pos _ h]
      rfl
    | false =>
      have e : List.foldl (fun a c => if a.isEmpty && c.isDrawFour then a ++ [c] else a)
          ([] : List Card) (c :: t) =
          List.foldl (fun a c => if a.isEmpty && c.isDrawFour then a ++ [c] else a) [] t := by
        rw [List.foldl_cons]; congr 1; simp [h]
      rw [e, ih, List.find?_cons_of_neg _ (by simp [h])]

/-- `playable_cards` in closed form: the filtered first pass if it is
non-empty, otherwise the first draw four of the hand (if any). -/
theorem playable_cards_eq (hand : List Card) (cur : Card) (st : Bool) :
    playable_cards hand cur st =
      if (hand.filter (fun c => c.isWild || firstPassChain st cur c)).isEmpty then
        (hand.find? (·.isDrawFour)).elim [] (fun c => [c])
      else hand.filter (fun c => c.isWild || firstPassChain st cur c) := by
  unfold playable_cards
  rw [foldl_playableStep, List.nil_append]
  cases hf : (hand.filter (fun c => c.isWild || firstPassChain st cur c)).isEmpty with
  | true =>
    rw [List.isEmpty_iff] at hf
    rw [hf, foldl_fallback_nil]
    simp
  | false =>
    have : hand.filter (fun c => c.isWild || firstPassChain st cur c) ≠ [] := by
      intro h; rw [h] at hf; simp at hf
    rw [foldl_fallback_of_ne_nil _ _ this]
    simp [hf]

theorem pred_of_drawFour (st : Bool) (cur c : Card) (h : c.kind = .drawFour) :
    (c.isWild || firstPassChain st cur c) = (st && cur.isDrawFour) := by
  have h4 : c.isDrawFour = true := by simp [Card.isDrawFour, h]
  have hW : c.isWild = false := by simp [Card.isWild, h]
  have hN : c.isNumbered = false := by simp [Card.isNumbered, h]
  have hS : c.isSkip = false := by simp [Card.isSkip, h]
  have hR : c.isReverse = false := by simp [Card.isReverse, h]
  have hT : c.isDrawTwo = false := by simp [Card.isDrawTwo, h]
  simp only [firstPassChain, h4, hW, hN, hS, hR, hT]
  cases hc : cur.isDrawFour <;> cases st <;> simp [hc]

theorem stacking_cond_false (st : Bool) (cur : Card)
    (h : ¬(st = true ∧ cur.kind = .drawFour)) : (st && cur.isDrawFour) = false := by
  cases hst : st with
  | false => simp
  | true =>
    have : cur.kind ≠ .drawFour := fun hc => h ⟨hst, hc⟩
    simp only [Bool.true_and]
    cases hc : cur.isDrawFour with
    | false => rfl
    | true => exact absurd ((isDrawFour_iff cur).mp hc) this

/-- **C5.**  For every hand, top card and `stacking` flag, a draw-four
card of the hand is in `playable_cards` iff either stacking is enabled
and the top card is a draw four, or no other card of the hand is in
`playable_cards` (the fallback rule).  In particular, whenever some other
card is playable and the stacking condition fails, the draw four is
excluded. -/
theorem C5_drawFour_playable_iff (hand : List Card) (cur : Card) (st : Bool) (d : Card)
    (hd : d ∈ hand) (hk : d.kind = .drawFour) :
    d ∈ playable_cards hand cur st ↔
      (st = true ∧ cur.kind = .drawFour) ∨
        ∀ c ∈ hand, c ≠ d → c ∉ playable_cards hand cur st := by
  rw [playable_cards_eq]
  cases hf : (hand.filter (fun c => c.isWild || firstPassChain st cur c)).isEmpty with
  | false =>
    by_cases hsc : st = true ∧ cur.kind = .drawFour
    · have hPd : (d.isWild || firstPassChain st cur d) = true := by
        rw [pred_of_drawFour st cur d hk, hsc.1, (isDrawFour_iff cur).mpr hsc.2]
        rfl
      simp only [hf, Bool.false_eq_true, if_false]
      constructor
      · intro _; exact Or.inl hsc
      · intro _; exact List.mem_filter.mpr ⟨hd, hPd⟩
    · have hb : (st && cur.isDrawFour) = false := stacking_cond_false st cur hsc
      have hPd : (d.isWild || firstPassChain st cur d) = false := by
        rw [pred_of_drawFour st cur d hk, hb]
      obtain ⟨c0, hc0⟩ :
          ∃ c0, c0 ∈ hand.filter (fun c => c.isWild || firstPassChain st cur c) := by
        cases hflt : hand.filter (fun c => c.isWild || firstPassChain st cur c) with
        | nil => rw [hflt] at hf; simp at hf
        | cons x xs => exact ⟨x, hflt ▸ List.mem_cons_self x xs⟩
      have hc0h : c0 ∈ hand := (List.mem_filter.mp hc0).1
      have hc0P := (List.mem_filter.mp hc0).2
      have hc0d : c0 ≠ d := by
        intro he; rw [he, hPd] at hc0P; exact Bool.false_ne_true hc0P
      simp only [hf, Bool.false_eq_true, if_false]
      apply iff_of_false
      · intro hmem
        have := (List.mem_filter.mp hmem).2
        rw [hPd] at this; exact Bool.false_ne_true this
      · rintro (h | hall)
        · exact hsc h
        · exact hall c0 hc0h hc0d hc0
  | true =>
    have hnil : hand.filter (fun c => c.isWild || firstPassChain st cur c) = [] :=
      List.isEmpty_iff.mp hf
    have hallP : ∀ c ∈ hand, ¬(c.isWild || firstPassChain st cur c) = true :=
      List.filter_eq_nil_iff.mp hnil
    have hb : (st && cur.isDrawFour) = false := by
      have h1 := hallP d hd
      rw [pred_of_drawFour st cur d hk] at h1
      cases h2 : (st && cur.isDrawFour) with
      | false => rfl
      | true => exact absurd h2 h1
    have hsc : ¬(st = true ∧ cur.kind = .drawFour) := by
      rintro ⟨h1, h2⟩
      rw [h1, (isDrawFour_iff cur).mpr h2] at hb
      exact absurd hb (by simp)
    obtain ⟨d0, hd0⟩ : ∃ d0, hand.find? (·.isDrawFour) = some d0 := by
      cases hf0 : hand.find? (·.isDrawFour) with
      | some d0 => exact ⟨d0, rfl⟩
      | none =>
        have := List.find?_eq_none.mp hf0 d hd
        rw [(isDrawFour_iff d).mpr hk] at this
        exact absurd rfl this
    have hd0mem : d0 ∈ hand := List.mem_of_find?_eq_some hd0
    simp only [hf, if_true, hd0, Option.elim]
    constructor
    · intro hmem
      have hdd0 : d = d0 := by simpa using hmem
      refine Or.inr (fun c hc hcd hcmem => ?_)
      have : c = d0 := by simpa using hcmem
      exact hcd (this.trans hdd0.symm)
    · rintro (h | hall)
      · exact absurd h hsc
      · by_cases hdd : d0 = d
        · simp [hdd]
        · exact absurd (by simp : d0 ∈ [d0]) (hall d0 hd0mem hdd)

/-- Witness for C5: a lone draw four on a numbered top card without
stacking is playable (fallback case). -/
theorem C5_witness :
    (⟨.drawFour, none⟩ : Card) ∈
        playable_cards [⟨.drawFour, none⟩] ⟨.numbered 3, some .Red⟩ false ↔
      (false = true ∧ (⟨.numbered 3, some .Red⟩ : Card).kind = .drawFour) ∨
        ∀ c ∈ [(⟨.drawFour, none⟩ : Card)], c ≠ ⟨.drawFour, none⟩ →
          c ∉ playable_cards [⟨.drawFour, none⟩] ⟨.numbered 3, some .Red⟩ false :=
  C5_drawFour_playable_iff _ _ _ _ (List.mem_singleton.mpr rfl) rfl

/-! ## Lemmas about the seven-zero rotation -/

theorem rotateOne_length (sp : Int) (l : List (List Card)) :
    (rotateOne sp l).length = l.length := by
  unfold rotateOne
  split <;> cases l <;> simp [List.length_dropLast] <;> omega

theorem map_hand_zipWith :
    ∀ (ps : List PlayerSt) (hs : List (List Card)), hs.length = ps.length →
      (List.zipWith (fun p h => { p with hand := h }) ps hs).map (·.hand) = hs := by
  intro ps
  induction ps with
  | nil => intro hs h; cases hs with
    | nil => rfl
    | cons a t => simp at h
  | cons p pt ih =>
    intro hs h
    cases hs with
    | nil => simp at h
    | cons a t =>
      simp only [List.zipWith_cons_cons, List.map_cons]
      rw [ih t (by simpa using h)]

theorem rotateHands_hands (g : GameState) :
    (rotateHands g).players.map (·.hand) = rotateOne g.spin (g.players.map (·.hand)) := by
  unfold rotateHands
  apply map_hand_zipWith
  rw [rotateOne_length, List.length_map]

theorem rotateOne_get_pos (hands : List (List Card)) (i : Nat) (hi : i < hands.length) :
    (rotateOne 1 hands)[i]? = hands[(i + hands.length - 1) % hands.length]? := by
  unfold rotateOne
  rw [if_pos rfl]
  have hn : 1 ≤ hands.length := Nat.one_le_of_lt (Nat.lt_of_le_of_lt (Nat.zero_le i) hi)
  have hlen1 : (hands.drop (hands.length - 1)).length = 1 := by
    rw [List.length_drop]; omega
  cases i with
  | zero =>
    have e1 : (0 + hands.length - 1) % hands.length = hands.length - 1 := by
      have e0 : 0 + hands.length - 1 = hands.length - 1 := by omega
      rw [e0, Nat.mod_eq_of_lt (by omega)]
    rw [e1, List.getElem?_append, hlen1, if_pos (by omega), List.getElem?_drop]
    simp
  | succ j =>
    have e1 : (j + 1 + hands.length - 1) % hands.length = j := by
      have e0 : j + 1 + hands.length - 1 = j + hands.length := by omega
      rw [e0, Nat.add_mod_right, Nat.mod_eq_of_lt (by omega)]
    rw [e1, List.getElem?_append, hlen1, if_neg (by omega),
      List.dropLast_eq_take, List.getElem?_take, if_pos (by omega)]
    simp

theorem rotateOne_get_neg (sp : Int) (hsp : sp ≠ 1) (hands : List (List Card)) (i : Nat)
    (hi : i < hands.length) :
    (rotateOne sp hands)[i]? = hands[(i + 1) % hands.length]? := by
  unfold rotateOne
  rw [if_neg hsp]
  have hn : 1 ≤ hands.length := Nat.one_le_of_lt (Nat.lt_of_le_of_lt (Nat.zero_le i) hi)
  have hlen1 : (hands.drop 1).length = hands.length - 1 := by
    rw [List.length_drop]
  by_cases hlast : i < hands.length - 1
  · have e1 : (i + 1) % hands.length = i + 1 := Nat.mod_eq_of_lt (by omega)
    rw [e1, List.getElem?_append, hlen1, if_pos (by omega), List.getElem?_drop]
    congr 1
    omega
  · have hieq : i = hands.length - 1 := by omega
    have e1 : (i + 1) % hands.length = 0 := by
      have e0 : i + 1 = hands.length := by omega
      rw [e0, Nat.mod_self]
    rw [e1, List.getElem?_append, hlen1, if_neg (by omega), List.getElem?_take,
      if_pos (by omega)]
    congr 1
    omega

/-- **C8.**  With seven-zero enabled, playing a numbered 0 rotates the
hands one position in the direction of the current spin: with `spin = 1`
player `i` receives the hand formerly at position `(i - 1) mod n` (player
0 receives the last player's hand), and with `spin = -1` player `i`
receives the hand formerly at position `(i + 1) mod n`. -/
theorem C8_seven_zero_rotation (s : Env) (ci : Nat)
    (hz : s.g.seven_zero = true)
    (hc : playerIdxFromTurn s.g s.g.turn = some ci) :
    numberedPlay s 0 = some { s with g := rotateHands s.g } ∧
    ∀ i, i < s.g.players.length →
      (s.g.spin = 1 →
        ((rotateHands s.g).players.map (·.hand))[i]? =
          (s.g.players.map (·.hand))[(i + s.g.players.length - 1) % s.g.players.length]?) ∧
      (s.g.spin = -1 →
        ((rotateHands s.g).players.map (·.hand))[i]? =
          (s.g.players.map (·.hand))[(i + 1) % s.g.players.length]?) := by
  constructor
  · simp [numberedPlay, hz, hc]
  · intro i hi
    have hlen : (s.g.players.map (·.hand)).length = s.g.players.length := by simp
    constructor
    · intro hsp
      rw [rotateHands_hands, hsp, rotateOne_get_pos _ i (by simpa using hi), hlen]
    · intro hsp
      rw [rotateHands_hands, hsp,
        rotateOne_get_neg (-1) (by decide) _ i (by simpa using hi), hlen]

/-- A concrete 4-player seven-zero game used to witness C8. -/
def g8 : GameState :=
  { players :=
      [⟨1, true, [⟨.numbered 1, some .Red⟩]⟩, ⟨2, false, [⟨.numbered 2, some .Red⟩]⟩,
        ⟨3, false, [⟨.numbered 3, some .Red⟩]⟩, ⟨4, false, [⟨.numbered 4, some .Red⟩]⟩]
    deck := []
    pile := []
    turn := 1
    spin := 1
    jump_in := false
    stacking := false
    seven_zero := true }

/-- The C8 witness environment. -/
def s8 : Env := ⟨g8, fun _ => 0, 0, []⟩

/-- Witness for C8: in the concrete 4-player game, playing a 0 rotates
and player 0 receives the hand formerly held by player 3. -/
theorem C8_witness :
    numberedPlay s8 0 = some { s8 with g := rotateHands s8.g } ∧
    ((rotateHands g8).players.map (·.hand))[0]? =
      (g8.players.map (·.hand))[(0 + g8.players.length - 1) % g8.players.length]? := by
  have h := C8_seven_zero_rotation s8 0 rfl (by decide)
  exact ⟨h.1, (h.2 0 (by decide)).1 rfl⟩

/-- **C10.**  When the played card is the last card of the acting
player's hand, `play_card` stops with a win immediately after moving the
card to the pile: the resulting state has the emptied hand and extended
pile but is otherwise identical — turn, spin, deck and every other hand
untouched, no oracle decision consumed (`k` unchanged: no colour choice,
no forced draw, no swap/rotation) and no jump-in offer logged. -/
theorem C10_win_before_effect (fuel : Nat) (s : Env) (pidx : Nat) (p : PlayerSt)
    (card : Card) (hp : s.g.players.get? pidx = some p) (hh : p.hand = [card]) :
    play_card (fuel + 1) s pidx card =
      some (.won { s with g := { s.g with
        players := s.g.players.set pidx { p with hand := [] }
        pile := s.g.pile ++ [card] } }) := by
  rw [play_card, hp]
  have he : p.hand.erase card = [] := by rw [hh]; simp
  simp [he]

/-- A concrete one-card-hand game used to witness C10. -/
def s10 : Env :=
  ⟨{ players := [⟨1, false, [⟨.reverse, some .Red⟩]⟩, ⟨2, false, [⟨.skip, some .Blue⟩]⟩]
     deck := [⟨.numbered 5, some .Red⟩]
     pile := [⟨.numbered 3, some .Red⟩]
     turn := 1
     spin := 1
     jump_in := true
     stacking := true
     seven_zero := true },
    fun _ => 0, 0, []⟩

/-- Witness for C10: player 1 plays their last card (a reverse, with
jump-in enabled) and the game ends with spin, turn, deck, oracle counter
and log untouched. -/
theorem C10_witness :
    play_card 5 s10 0 ⟨.reverse, some .Red⟩ =
      some (.won { s10 with g := { s10.g with
        players := s10.g.players.set 0 ⟨1, false, []⟩
        pile := s10.g.pile ++ [⟨.reverse, some .Red⟩] } }) :=
  C10_win_before_effect 4 s10 0 ⟨1, false, [⟨.reverse, some .Red⟩]⟩ ⟨.reverse, some .Red⟩
    rfl rfl

/-- A concrete stacked draw-two scenario used for C1: stacking on, pile
ending in two consecutive draw twos (the top one just played), next
player (player 2, index 1) holding no draw two, four cards in the deck. -/
def s1 : Env :=
  ⟨{ players := [⟨1, false, [⟨.numbered 7, some .Red⟩]⟩, ⟨2, false, []⟩]
     deck := [⟨.numbered 1, some .Red⟩, ⟨.numbered 2, some .Red⟩,
       ⟨.numbered 3, some .Red⟩, ⟨.numbered 4, some .Red⟩]
     pile := [⟨.numbered 5, some .Red⟩, ⟨.drawTwo, some .Red⟩, ⟨.drawTwo, some .Blue⟩]
     turn := 1
     spin := 1
     jump_in := false
     stacking := true
     seven_zero := false },
    fun _ => 0, 0, []⟩

/-- **C1 (failing-input evidence).**  In the stacked scenario `s1` the
accumulated total announced by `DrawTwoCard.activate` is `2 * count = 4`,
yet resolving the forced draw (`DrawTwoCard.play`, whose hand scan finds
no draw two and calls `activate`) hands the penalised player exactly 2
cards — the draw loop is `for _ in range(2)`, ignoring `count` — leaving
2 of the 4 deck cards undrawn.  The claim (and the code's own printed
message) requires 4 cards drawn. -/
theorem C1_drawTwo_draws_two_not_four :
    2 * drawTwoStackCount s1.g = 4 ∧
    (drawTwoPlay s1).map (fun s => (s.g.players.map (·.hand.length))[1]?) =
      some (some 2) ∧
    (drawTwoPlay s1).map (fun s => s.g.deck.length) = some 2 := by
  refine ⟨by decide, ?_, ?_⟩ <;> decide

/-- A concrete no-playable-card turn used for C4: player 1 holds only a
red 5 against a blue 3 top card, and the next deck card is a blue 7
(legal against the top card). -/
def s4 : Env :=
  ⟨{ players := [⟨1, false, [⟨.numbered 5, some .Red⟩]⟩, ⟨2, false, [⟨.skip, some .Red⟩]⟩]
     deck := [⟨.numbered 7, some .Blue⟩, ⟨.numbered 9, some .Green⟩]
     pile := [⟨.numbered 3, some .Blue⟩]
     turn := 1
     spin := 1
     jump_in := false
     stacking := false
     seven_zero := false },
    fun _ => 0, 0, []⟩

/-- **C4 (failing-input evidence).**  In `s4` the freshly drawn blue 7
is legal against the blue 3 top card (first conjunct), yet the turn
resolves with the pile untouched, the blue 7 still in player 1's hand and
the turn passed to player 2: `run_game` re-tests the stale local
`playable_cards` list computed before the draw (still empty), so the
drawn card is never played.  The claim requires it to be played. -/
theorem C4_drawn_card_not_played :
    (⟨.numbered 7, some .Blue⟩ : Card) ∈
      playable_cards [⟨.numbered 5, some .Red⟩, ⟨.numbered 7, some .Blue⟩]
        ⟨.numbered 3, some .Blue⟩ false ∧
    (match runTurn 5 s4 with
      | some (.cont s) => some (s.g.pile, (s.g.players.map (·.hand))[0]?, s.g.turn)
      | _ => none) =
      some ([⟨.numbered 3, some .Blue⟩],
        some [⟨.numbered 5, some .Red⟩, ⟨.numbered 7, some .Blue⟩], 2) := by
  constructor <;> decide

/-- A concrete jump-in scenario used for C3: jump-in enabled, player 1
plays a red reverse, player 3 holds an equal red reverse and the oracle
always answers "yes" (odd values). -/
def s3 : Env :=
  ⟨{ players :=
      [⟨1, false, [⟨.reverse, some .Red⟩, ⟨.numbered 9, some .Green⟩]⟩,
        ⟨2, false, []⟩,
        ⟨3, false, [⟨.reverse, some .Red⟩, ⟨.numbered 8, some .Green⟩]⟩]
     deck := []
     pile := [⟨.numbered 5, some .Red⟩]
     turn := 1
     spin := 1
     jump_in := true
     stacking := false
     seven_zero := false },
    fun _ => 1, 0, []⟩

/-- **C3 (failing-input evidence).**  In `s3` player 3 is offered the
jump-in (log `[3]`), accepts, and plays their red reverse — which flips
the spin to `-1` — yet the final spin is back to `1`: because the inner
`break` of `play_jump_in` never leaves the outer player loop, the
`for/else` `else` branch runs `card.play()` for the original reverse as
well, flipping the spin a second time.  Under the claim the original
card's effect must not be applied after an accepted jump-in, so the spin
would end at `-1`. -/
theorem C3_original_effect_still_applied :
    (match play_card 5 s3 0 ⟨.reverse, some .Red⟩ with
      | some (.cont s) => some (s.g.spin, s.g.turn, s.log)
      | _ => none) = some ((1 : Int), (3 : Int), [3]) := by
  decide

/-! ## C7: the reshuffle after a deck-emptying draw -/

theorem drop_length_pred {α : Type} (l : List α) (h : l ≠ []) :
    l.drop (l.length - 1) = [l.getLast h] := by
  conv_lhs => rw [← List.dropLast_append_getLast h]
  have e : (l.dropLast ++ [l.getLast h]).length - 1 = l.dropLast.length := by simp
  rw [e, List.drop_left]

/-- A concrete game for the C7 counterexample: one card in the deck and a
single-card pile. -/
def g7 : GameState :=
  { players := [⟨1, false, []⟩, ⟨2, false, []⟩]
    deck := [⟨.numbered 1, some .Red⟩]
    pile := [⟨.numbered 2, some .Blue⟩]
    turn := 1
    spin := 1
    jump_in := false
    stacking := false
    seven_zero := false }

/-- **C7 (counterexample).**  Drawing the last deck card with a
single-card pile satisfies the claim's premise (deck becomes empty
immediately after a draw, pile `[c1]`), the reshuffle moves nothing and
the next draw fails — refuting the claim's promise that `a subsequent
draw can proceed without error` for every pile. -/
theorem C7_counterexample :
    deal_card g7 0 0 =
      some ({ g7 with
        players := [⟨1, false, [⟨.numbered 1, some .Red⟩]⟩, ⟨2, false, []⟩]
        deck := [] }, ⟨.numbered 1, some .Red⟩) ∧
    (∀ r2, deal_card { g7 with
        players := [⟨1, false, [⟨.numbered 1, some .Red⟩]⟩, ⟨2, false, []⟩]
        deck := [] } 0 r2 = none) := by
  constructor
  · decide
  · intro r2
    rfl

/-- **C7 (amended).**  Whenever a draw (`deal_card`) empties the deck
(the deck held exactly one card), the reshuffle leaves the deck holding
exactly the pile cards other than the last one, in order, and the pile
holding only its former top card; and provided the pile had at least two
cards, a subsequent draw succeeds. -/
theorem C7_reshuffle_after_emptying_draw (g : GameState) (pidx r : Nat)
    (g' : GameState) (c : Card) (hlen : g.deck.length = 1)
    (h : deal_card g pidx r = some (g', c)) :
    g'.deck = g.pile.dropLast ∧
    g'.pile = g.pile.drop (g.pile.length - 1) ∧
    (g.pile ≠ [] → ∃ last, g.pile.getLast? = some last ∧ g'.pile = [last]) ∧
    (2 ≤ g.pile.length → ∀ r2, (deal_card g' pidx r2).isSome = true) := by
  obtain ⟨d, hd⟩ : ∃ d, g.deck = [d] := by
    cases hdeck : g.deck with
    | nil => rw [hdeck] at hlen; simp at hlen
    | cons x t =>
      cases t with
      | nil => exact ⟨x, rfl⟩
      | cons y u => rw [hdeck] at hlen; simp at hlen
  have hget : g.deck.get? (r % g.deck.length) = some d := by
    rw [hd]; simp [Nat.mod_one]
  cases hp : g.players.get? pidx with
  | none =>
    rw [deal_card, hget, hp] at h
    exact absurd h (by simp)
  | some p =>
    rw [deal_card, hget, hp] at h
    have herase : g.deck.erase d = [] := by rw [hd]; simp
    dsimp only at h
    rw [herase] at h
    simp only [List.isEmpty_nil, if_true, Option.some.injEq, Prod.mk.injEq] at h
    obtain ⟨hg'eq, -⟩ := h
    have hg' : g' = reshuffle
        { g with deck := [], players := g.players.set pidx { p with hand := p.hand ++ [d] } } :=
      hg'eq.symm
    have hdeck' : g'.deck = g.pile.dropLast := by
      rw [hg']; simp [reshuffle]
    have hpile' : g'.pile = g.pile.drop (g.pile.length - 1) := by
      rw [hg']; simp [reshuffle]
    have hplayers' : g'.players = g.players.set pidx { p with hand := p.hand ++ [d] } := by
      rw [hg']; simp [reshuffle]
    refine ⟨hdeck', hpile', ?_, ?_⟩
    · intro hne
      refine ⟨g.pile.getLast hne, List.getLast?_eq_getLast _ hne, ?_⟩
      rw [hpile', drop_length_pred g.pile hne]
    · intro h2 r2
      have hdl : 1 ≤ g'.deck.length := by
        rw [hdeck', List.length_dropLast]; omega
      have hmod : r2 % g'.deck.length < g'.deck.length := Nat.mod_lt _ (by omega)
      have hget2 : g'.deck.get? (r2 % g'.deck.length) =
          some (g'.deck.get ⟨r2 % g'.deck.length, hmod⟩) := List.get?_eq_get hmod
      have hpidx : pidx < g.players.length := by
        by_contra hge
        rw [List.get?_eq_none.mpr (by omega)] at hp
        exact Option.noConfusion hp
      have hp2 : g'.players.get? pidx =
          some { p with hand := p.hand ++ [d] } := by
        rw [hplayers']
        exact List.get?_set_eq_of_lt _ hpidx
      rw [deal_card, hget2, hp2]
      simp

/-- Concrete input for the C7 witness: one-card deck, two-card pile. -/
def g7w : GameState :=
  { players := [⟨1, false, []⟩]
    deck := [⟨.numbered 1, some .Red⟩]
    pile := [⟨.numbered 2, some .Blue⟩, ⟨.numbered 3, some .Green⟩]
    turn := 1
    spin := 1
    jump_in := false
    stacking := false
    seven_zero := false }

/-- The state `deal_card` produces from `g7w`. -/
def g7wAfter : GameState :=
  { players := [⟨1, false, [⟨.numbered 1, some .Red⟩]⟩]
    deck := [⟨.numbered 2, some .Blue⟩]
    pile := [⟨.numbered 3, some .Green⟩]
    turn := 1
    spin := 1
    jump_in := false
    stacking := false
    seven_zero := false }

/-- Witness for the amended C7: drawing the last deck card with a
two-card pile reshuffles all-but-top into the deck and the next draw
succeeds. -/
theorem C7_witness :
    g7wAfter.deck = g7w.pile.dropLast ∧
    g7wAfter.pile = g7w.pile.drop (g7w.pile.length - 1) ∧
    (g7w.pile ≠ [] → ∃ last, g7w.pile.getLast? = some last ∧ g7wAfter.pile = [last]) ∧
    (2 ≤ g7w.pile.length → ∀ r2, (deal_card g7wAfter 0 r2).isSome = true) :=
  C7_reshuffle_after_emptying_draw g7w 0 0 g7wAfter ⟨.numbered 1, some .Red⟩ rfl (by decide)

/-! ## C9: the save/load round trip -/

/-- Non-wild, non-draw-four cards must carry a colour for the parse model
to apply (true of every card the program ever constructs: those classes
are always instantiated with a colour). -/
def colouredOk (c : Card) : Bool :=
  c.isWild || c.isDrawFour || c.colour.isSome

/-- All cards of the state satisfy `colouredOk`. -/
def gColoursOk (g : GameState) : Bool :=
  g.deck.all colouredOk && g.pile.all colouredOk &&
    g.players.all (fun p => p.hand.all colouredOk)

theorem compColour_colourComp (col : Colour) :
    compColour (colourComp (some col)) = some col := by
  cases col <;> rfl

theorem from_string_cardRepr (c : Card) (h : colouredOk c = true) :
    from_string (cardRepr c) = some (stripCard c) := by
  cases c with
  | mk k col =>
    cases k with
    | numbered n =>
      have hcol : col.isSome = true := by
        simpa [colouredOk, Card.isWild, Card.isDrawFour] using h
      obtain ⟨cv, rfl⟩ := Option.isSome_iff_exists.mp hcol
      simp [cardRepr, from_string, compColour_colourComp, stripCard]
    | skip =>
      have hcol : col.isSome = true := by
        simpa [colouredOk, Card.isWild, Card.isDrawFour] using h
      obtain ⟨cv, rfl⟩ := Option.isSome_iff_exists.mp hcol
      simp [cardRepr, from_string, compColour_colourComp, stripCard]
    | drawTwo =>
      have hcol : col.isSome = true := by
        simpa [colouredOk, Card.isWild, Card.isDrawFour] using h
      obtain ⟨cv, rfl⟩ := Option.isSome_iff_exists.mp hcol
      simp [cardRepr, from_string, compColour_colourComp, stripCard]
    | reverse =>
      have hcol : col.isSome = true := by
        simpa [colouredOk, Card.isWild, Card.isDrawFour] using h
      obtain ⟨cv, rfl⟩ := Option.isSome_iff_exists.mp hcol
      simp [cardRepr, from_string, compColour_colourComp, stripCard]
    | drawFour => simp [cardRepr, from_string, stripCard]
    | wild => simp [cardRepr, from_string, stripCard]

theorem parseCards_cardRepr (l : List Card) (h : l.all colouredOk = true) :
    parseCards (l.map cardRepr) = some (l.map stripCard) := by
  induction l with
  | nil => rfl
  | cons c t ih =>
    rw [List.all_cons, Bool.and_eq_true] at h
    simp [parseCards, from_string_cardRepr c h.1, ih h.2]

/-- **C9 (amended).**  Saving and loading reproduces the state except
that every wild and draw-four card's chosen colour is reset to absent;
kinds, numbers, the colours of all other cards, player names, human
flags, hand/deck/pile order, turn, spin and the rule flags are all
preserved. -/
theorem C9_roundtrip_strips_wild_colours (g : GameState) (h : gColoursOk g = true) :
    load_game (save_game g) = some (stripGame g) := by
  rw [gColoursOk, Bool.and_eq_true, Bool.and_eq_true] at h
  obtain ⟨⟨hdeck, hpile⟩, hplayers⟩ := h
  unfold load_game save_game
  rw [parseCards_cardRepr g.deck hdeck, parseCards_cardRepr g.pile hpile]
  have hp : ∀ ps : List PlayerSt, ps.all (fun p => p.hand.all colouredOk) = true →
      parsePlayers (ps.map (fun p => SavedPlayer.mk p.name p.human (p.hand.map cardRepr))) =
        some (ps.map (fun p => { p with hand := p.hand.map stripCard })) := by
    intro ps hps
    induction ps with
    | nil => rfl
    | cons p t ih =>
      rw [List.all_cons, Bool.and_eq_true] at hps
      simp [parsePlayers, parseCards_cardRepr p.hand hps.1, ih hps.2]
  rw [hp g.players hplayers]
  rfl

/-- The C9 counterexample state: a wild card with a chosen colour on the
pile. -/
def g9c : GameState :=
  { players := [⟨1, false, []⟩]
    deck := []
    pile := [⟨.wild, some .Red⟩]
    turn := 1
    spin := 1
    jump_in := false
    stacking := false
    seven_zero := false }

/-- **C9 (counterexample).**  A wild card lying on the pile with chosen
colour Red does not survive the round trip: `from_string` reconstructs
`WildCard` by its bare constructor and the colour comes back absent. -/
theorem C9_counterexample : load_game (save_game g9c) ≠ some g9c := by
  decide

/-- Concrete state for the C9 witness. -/
def g9w : GameState :=
  { players := [⟨1, true, [⟨.numbered 5, some .Red⟩, ⟨.drawFour, none⟩]⟩, ⟨2, false, []⟩]
    deck := [⟨.skip, some .Blue⟩, ⟨.drawTwo, some .Yellow⟩]
    pile := [⟨.wild, some .Green⟩]
    turn := 2
    spin := -1
    jump_in := true
    stacking := false
    seven_zero := true }

/-- Witness for the amended C9 at a concrete mixed state. -/
theorem C9_witness : load_game (save_game g9w) = some (stripGame g9w) :=
  C9_roundtrip_strips_wild_colours g9w (by decide)

/-! ## C6: card conservation -/

theorem sum_hand_set :
    ∀ (l : List PlayerSt) (i : Nat) (p q : PlayerSt), l.get? i = some p →
      ((l.set i q).map (fun x => (x.hand : Multiset Card))).sum + (p.hand : Multiset Card) =
        (l.map (fun x => (x.hand : Multiset Card))).sum + (q.hand : Multiset Card) := by
  intro l
  induction l with
  | nil => intro i p q h; simp at h
  | cons a t ih =>
    intro i p q h
    cases i with
    | zero =>
      simp only [List.get?_cons_zero, Option.some.injEq] at h
      subst h
      simp only [List.set_cons_zero, List.map_cons, List.sum_cons]
      abel
    | succ n =>
      simp only [List.get?_cons_succ] at h
      have key := ih n p q h
      simp only [List.set_cons_succ, List.map_cons, List.sum_cons]
      rw [add_assoc, add_assoc, key]

theorem reshuffle_cardsM (g : GameState) : cardsM (reshuffle g) = cardsM g := by
  unfold cardsM reshuffle
  have e : g.pile.dropLast ++ g.pile.drop (g.pile.length - 1) = g.pile := by
    conv_rhs => rw [← List.take_append_drop (g.pile.length - 1) g.pile]
    rw [List.dropLast_eq_take]
  have h : (↑(g.deck ++ g.pile.dropLast) + ↑(g.pile.drop (g.pile.length - 1)) :
      Multiset Card) = ↑g.deck + ↑g.pile := by
    rw [Multiset.coe_add, Multiset.coe_add, List.append_assoc, e]
  simp only []
  rw [h]

theorem hand_append_cardsM (g : GameState) (pidx : Nat) (p : PlayerSt) (c : Card)
    (hp : g.players.get? pidx = some p) :
    cardsM { g with players := g.players.set pidx { p with hand := p.hand ++ [c] } } +
        (p.hand : Multiset Card) =
      cardsM g + ((p.hand : Multiset Card) + {c}) := by
  unfold cardsM
  have key := sum_hand_set g.players pidx p { p with hand := p.hand ++ [c] } hp
  simp only at key ⊢
  rw [add_assoc, add_assoc, key]
  have e : (↑(p.hand ++ [c]) : Multiset Card) = ↑p.hand + {c} := by
    rw [← Multiset.coe_add]
    rfl
  rw [e]
  abel

theorem deal_card_cardsM (g : GameState) (pidx r : Nat) (g' : GameState) (c : Card)
    (h : deal_card g pidx r = some (g', c)) : cardsM g' = cardsM g := by
  unfold deal_card at h
  cases hget : g.deck.get? (r % g.deck.length) with
  | none => rw [hget] at h; exact absurd h (by simp)
  | some d =>
    cases hp : g.players.get? pidx with
    | none => rw [hget, hp] at h; exact absurd h (by simp)
    | some p =>
      rw [hget, hp] at h
      dsimp only at h
      simp only [Option.some.injEq, Prod.mk.injEq] at h
      obtain ⟨hg', hc⟩ := h
      have hdmem : d ∈ g.deck := by
        have := List.get?_eq_some.mp hget
        obtain ⟨hlt, hval⟩ := this
        exact hval ▸ List.get_mem _ _ _
      have hdeckM : (↑g.deck : Multiset Card) = ↑(g.deck.erase d) + {d} := by
        have hperm := List.perm_cons_erase hdmem
        calc (↑g.deck : Multiset Card)
            = ↑([d] ++ g.deck.erase d) := Multiset.coe_eq_coe.mpr hperm
          _ = ↑[d] + ↑(g.deck.erase d) := (Multiset.coe_add _ _).symm
          _ = ↑(g.deck.erase d) + {d} := by
              rw [add_comm]
              rfl
      set gmid : GameState :=
        { g with
          deck := g.deck.erase d
          players := g.players.set pidx { p with hand := p.hand ++ [d] } } with hgmid
      have hmid : cardsM gmid = cardsM g := by
        have hap := hand_append_cardsM
          { g with deck := g.deck.erase d } pidx p d (by simpa using hp)
        have hmid2 : cardsM { g with deck := g.deck.erase d } + {d} = cardsM g := by
          unfold cardsM
          simp only []
          rw [hdeckM]
          abel
        apply add_right_cancel (b := (p.hand : Multiset Card))
        rw [hap]
        rw [← hmid2]
        abel
      rw [← hg']
      by_cases hempty : (g.deck.erase d).isEmpty = true
      · rw [if_pos hempty, reshuffle_cardsM]
        exact hmid
      · rw [if_neg hempty]
        exact hmid

theorem playMoveFn_cardsM (g : GameState) (pidx : Nat) (p : PlayerSt) (card : Card)
    (hp : g.players.get? pidx = some p) (hc : card ∈ p.hand) :
    cardsM (playMoveFn g pidx card) = cardsM g := by
  unfold playMoveFn
  rw [hp]
  unfold cardsM
  simp only []
  have key := sum_hand_set g.players pidx p { p with hand := p.hand.erase card } hp
  have hhandM : (↑p.hand : Multiset Card) = ↑(p.hand.erase card) + {card} := by
    have hperm := List.perm_cons_erase hc
    calc (↑p.hand : Multiset Card)
        = ↑([card] ++ p.hand.erase card) := Multiset.coe_eq_coe.mpr hperm
      _ = ↑[card] + ↑(p.hand.erase card) := (Multiset.coe_add _ _).symm
      _ = ↑(p.hand.erase card) + {card} := by
          rw [add_comm]
          rfl
  have hpileM : (↑(g.pile ++ [card]) : Multiset Card) = ↑g.pile + {card} := by
    rw [← Multiset.coe_add]; rfl
  apply add_right_cancel (b := (↑p.hand : Multiset Card))
  rw [add_assoc, add_assoc, key, hpileM]
  conv_rhs => rw [hhandM]
  abel

theorem seedPile_cardsM (g : GameState) (r : Nat) (g' : GameState) (c : Card)
    (h : seedPile g r = some (g', c)) : cardsM g' = cardsM g := by
  unfold seedPile at h
  dsimp only at h
  cases hget : (g.deck.filter (·.isNumbered)).get?
      (r % (g.deck.filter (·.isNumbered)).length) with
  | none => rw [hget] at h; exact absurd h (by simp)
  | some d =>
    rw [hget] at h
    simp only [Option.some.injEq, Prod.mk.injEq] at h
    obtain ⟨hg', hc⟩ := h
    have hdmem : d ∈ g.deck := by
      have := List.get?_eq_some.mp hget
      obtain ⟨hlt, hval⟩ := this
      have : d ∈ g.deck.filter (·.isNumbered) := hval ▸ List.get_mem _ _ _
      exact (List.mem_filter.mp this).1
    have hdeckM : (↑g.deck : Multiset Card) = ↑(g.deck.erase d) + {d} := by
      have hperm := List.perm_cons_erase hdmem
      calc (↑g.deck : Multiset Card)
          = ↑([d] ++ g.deck.erase d) := Multiset.coe_eq_coe.mpr hperm
        _ = ↑[d] + ↑(g.deck.erase d) := (Multiset.coe_add _ _).symm
        _ = ↑(g.deck.erase d) + {d} := by
            rw [add_comm]
            rfl
    rw [← hg']
    unfold cardsM
    simp only []
    rw [hdeckM]
    have hpileM : (↑(g.pile ++ [d]) : Multiset Card) = ↑g.pile + {d} := by
      rw [← Multiset.coe_add]; rfl
    rw [hpileM]
    abel

theorem swapHands_cardsM (g : GameState) (i j : Nat) :
    cardsM (swapHands g i j) = cardsM g := by
  unfold swapHands
  cases hpi : g.players.get? i with
  | none => rfl
  | some pi =>
    cases hpj : g.players.get? j with
    | none => rfl
    | some pj =>
      unfold cardsM
      simp only []
      have key1 := sum_hand_set g.players i pi { pi with hand := pj.hand } hpi
      by_cases hij : i = j
      · subst hij
        have hpij : pi = pj := by rw [hpi] at hpj; exact Option.some.inj hpj
        subst hpij
        have hget2 : (g.players.set i { pi with hand := pi.hand }).get? i =
            some { pi with hand := pi.hand } := by
          have hlt : i < g.players.length := (List.get?_eq_some.mp hpi).1
          exact List.get?_set_eq_of_lt _ (by simpa using hlt)
        have key2 := sum_hand_set (g.players.set i { pi with hand := pi.hand }) i
          { pi with hand := pi.hand } { pi with hand := pi.hand } hget2
        have hS := add_right_cancel (key2.trans key1)
        simp only at hS ⊢
        rw [hS]
      · have hget2 : (g.players.set i { pi with hand := pj.hand }).get? j = some pj := by
          rw [List.get?_set_ne _ _ (fun he => hij he)]
          exact hpj
        have key2 := sum_hand_set (g.players.set i { pi with hand := pj.hand }) j
          pj { pj with hand := pi.hand } hget2
        have hS := add_right_cancel (key2.trans key1)
        simp only at hS ⊢
        rw [hS]

theorem rotateOne_perm (sp : Int) (l : List (List Card)) : (rotateOne sp l).Perm l := by
  unfold rotateOne
  split
  · rw [List.dropLast_eq_take]
    exact (List.perm_append_comm).trans (by rw [List.take_append_drop])
  · exact (List.perm_append_comm).trans (by rw [List.take_append_drop])

theorem rotateHands_cardsM (g : GameState) : cardsM (rotateHands g) = cardsM g := by
  unfold cardsM
  have h1 : (rotateHands g).players.map (fun x => (x.hand : Multiset Card)) =
      (rotateOne g.spin (g.players.map (·.hand))).map
        (fun hd : List Card => (hd : Multiset Card)) := by
    rw [← rotateHands_hands g, List.map_map]
    rfl
  have h3 : ((g.players.map (·.hand)).map (fun hd : List Card => (hd : Multiset Card))) =
      g.players.map (fun x => (x.hand : Multiset Card)) := by
    rw [List.map_map]
    rfl
  have h2 : ((rotateOne g.spin (g.players.map (·.hand))).map
        (fun hd : List Card => (hd : Multiset Card))).sum =
      (g.players.map (fun x => (x.hand : Multiset Card))).sum := by
    rw [← h3]
    exact List.Perm.sum_eq (List.Perm.map _ (rotateOne_perm _ _))
  have hdeck : (rotateHands g).deck = g.deck := rfl
  have hpile : (rotateHands g).pile = g.pile := rfl
  rw [hdeck, hpile, h1, h2]

theorem sum_card (ms : List (Multiset Card)) :
    ms.sum.card = (ms.map Multiset.card).sum := by
  induction ms with
  | nil => simp
  | cons m t ih => simp [ih]

theorem cardsM_card (g : GameState) : (cardsM g).card = totalCards g := by
  unfold cardsM totalCards
  rw [Multiset.card_add, Multiset.card_add, sum_card, List.map_map]
  rfl

theorem sum_len_set :
    ∀ (l : List PlayerSt) (i : Nat) (p q : PlayerSt), l.get? i = some p →
      ((l.set i q).map (fun x => x.hand.length)).sum + p.hand.length =
        (l.map (fun x => x.hand.length)).sum + q.hand.length := by
  intro l
  induction l with
  | nil => intro i p q h; simp at h
  | cons a t ih =>
    intro i p q h
    cases i with
    | zero =>
      simp only [List.get?_cons_zero, Option.some.injEq] at h
      subst h
      simp only [List.set_cons_zero, List.map_cons, List.sum_cons]
      omega
    | succ n =>
      simp only [List.get?_cons_succ] at h
      have key := ih n p q h
      simp only [List.set_cons_succ, List.map_cons, List.sum_cons]
      omega

theorem setPileColour_total (g : GameState) (idx : Nat) (col : Colour) :
    totalCards (setPileColour g idx col) = totalCards g := by
  unfold setPileColour
  cases h : g.pile.get? idx with
  | none => rfl
  | some c =>
    unfold totalCards
    simp [List.length_set]

theorem resetHandColours_total (g : GameState) (i : Nat) :
    totalCards (resetHandColours g i) = totalCards g := by
  unfold resetHandColours
  cases hp : g.players.get? i with
  | none => rfl
  | some p =>
    unfold totalCards
    simp only []
    have key := sum_len_set g.players i p
      { p with hand := p.hand.map resetCardColour } hp
    simp only [List.length_map] at key
    omega

theorem step_totalCards {g g' : GameState} (h : Step g g') :
    totalCards g' = totalCards g := by
  cases h with
  | deal pidx r g' c hd =>
    rw [← cardsM_card, ← cardsM_card, deal_card_cardsM _ _ _ _ _ hd]
  | playMove pidx p card hp hc =>
    rw [← cardsM_card, ← cardsM_card, playMoveFn_cardsM _ _ _ _ hp hc]
  | seed r g' c hs =>
    rw [← cardsM_card, ← cardsM_card, seedPile_cardsM _ _ _ _ hs]
  | reshuffleStep => rw [← cardsM_card, ← cardsM_card, reshuffle_cardsM]
  | swap i j => rw [← cardsM_card, ← cardsM_card, swapHands_cardsM]
  | rotate => rw [← cardsM_card, ← cardsM_card, rotateHands_cardsM]
  | setColour idx col => exact setPileColour_total _ idx col
  | resetCols i => exact resetHandColours_total _ i
  | setTurn t => rfl
  | setSpin sp => rfl

theorem fullDeck_length : fullDeck.length = 108 := by decide

theorem initGame_totalCards (n h : Nat) (ji st sz : Bool) :
    totalCards (initGame n h ji st sz) = 108 := by
  unfold totalCards initGame
  simp only []
  rw [fullDeck_length]
  have hz : ((mkPlayers n h).map (fun p => p.hand.length)).sum = 0 := by
    apply List.sum_eq_zero
    intro x hx
    rw [List.mem_map] at hx
    obtain ⟨p, hp, rfl⟩ := hx
    unfold mkPlayers at hp
    rw [List.mem_map] at hp
    obtain ⟨i, _, rfl⟩ := hp
    rfl
  rw [hz]
  rfl

theorem reachable_totalCards (n h : Nat) (ji st sz : Bool) (g : GameState)
    (hr : Reachable n h ji st sz g) : totalCards g = 108 := by
  unfold Reachable at hr
  induction hr with
  | refl => exact initGame_totalCards n h ji st sz
  | tail hsteps hstep ih => rw [step_totalCards hstep]; exact ih

/-- **C6.**  Card conservation.  First conjunct: in every state reachable
from a newly initialised game through program steps (dealing, playing,
pile seeding, reshuffling, seven-swap, zero-rotation, colour writes and
turn/spin updates), `|deck| + |pile| + Σ|hand_i| = 108`.  The remaining
conjuncts: each card-moving operation — dealing (with its embedded
reshuffle), the play move, a reshuffle, pile seeding, the seven-swap and
the zero-rotation — preserves the exact multiset of cards spread over
deck, pile and hands, so no card is ever duplicated or lost. -/
theorem C6_card_conservation :
    (∀ n h ji st sz g, Reachable n h ji st sz g → totalCards g = 108) ∧
    (∀ g pidx r g' c, deal_card g pidx r = some (g', c) → cardsM g' = cardsM g) ∧
    (∀ g pidx p card, g.players.get? pidx = some p → card ∈ p.hand →
      cardsM (playMoveFn g pidx card) = cardsM g) ∧
    (∀ g : GameState, cardsM (reshuffle g) = cardsM g) ∧
    (∀ g r g' c, seedPile g r = some (g', c) → cardsM g' = cardsM g) ∧
    (∀ g i j, cardsM (swapHands g i j) = cardsM g) ∧
    (∀ g : GameState, cardsM (rotateHands g) = cardsM g) :=
  ⟨reachable_totalCards, deal_card_cardsM, playMoveFn_cardsM, reshuffle_cardsM,
    seedPile_cardsM, swapHands_cardsM, rotateHands_cardsM⟩

/-- Witness for C6: the newly initialised 4-player game holds 108
cards. -/
theorem C6_witness : totalCards (initGame 4 1 false false false) = 108 :=
  C6_card_conservation.1 4 1 false false false _ Relation.ReflTransGen.refl

/-! ## C2: who is offered the jump-in -/

/-- The offers one player generates in the `play_jump_in` scan, assuming
they decline: nothing when they are the next-turn player and the card is
a skip, nothing for a wild or draw four, otherwise one offer per card of
their hand equal to the played one. -/
def offersFor (g : GameState) (card : Card) (i : Nat) : List Nat :=
  if playerIdxFromTurn g (next_turn g) = some i ∧ card.isSkip = true then []
  else
    match g.players.get? i with
    | none => []
    | some p =>
      if card.isWild || card.isDrawFour then []
      else (p.hand.filter (fun pc => pc == card)).map (fun _ => p.name)

/-- All offers of one `play_jump_in` scan over the player indices `ps`,
assuming every offer is declined. -/
def allOffers (g : GameState) (card : Card) (ps : List Nat) : List Nat :=
  ps.flatMap (offersFor g card)

theorem jumpInHand_wild_d4 (playF : Env → Nat → Card → Option PlayRes)
    (card : Card) (pileIdx i nm : Nat) (hw : (card.isWild || card.isDrawFour) = true) :
    ∀ (cards : List Card) (s : Env),
      jumpInHand playF card pileIdx i nm s cards = some (.next s) := by
  intro cards
  induction cards with
  | nil => intro s; rw [jumpInHand]
  | cons pc rest ih =>
    intro s
    rw [jumpInHand, if_pos hw]
    exact ih s

theorem jumpInHand_all_decline (playF : Env → Nat → Card → Option PlayRes)
    (card : Card) (pileIdx i nm : Nat)
    (hw : (card.isWild || card.isDrawFour) = false) :
    ∀ (cards : List Card) (s : Env), (∀ j, s.rnd j % 2 = 0) →
      jumpInHand playF card pileIdx i nm s cards =
        some (.next { s with
          k := s.k + (cards.filter (fun pc => pc == card)).length
          log := s.log ++
            List.replicate (cards.filter (fun pc => pc == card)).length nm }) := by
  intro cards
  induction cards with
  | nil =>
    intro s _
    rw [jumpInHand]
    simp
  | cons pc rest ih =>
    intro s hdec
    have hnw : ¬((card.isWild || card.isDrawFour) = true) := by simp [hw]
    by_cases hpc : pc = card
    · have hacc : ¬(s.rnd s.k % 2 = 1) := by
        have := hdec s.k
        omega
      rw [jumpInHand, if_neg hnw, if_pos hpc]
      simp only [if_neg hacc]
      rw [ih { s with k := s.k + 1, log := s.log ++ [nm] } hdec]
      rw [List.filter_cons, if_pos (by simp [hpc])]
      simp only [List.length_cons]
      have hk : s.k + 1 + (List.filter (fun pc => pc == card) rest).length =
          s.k + ((List.filter (fun pc => pc == card) rest).length + 1) := by omega
      rw [hk, List.replicate_succ, List.append_assoc]
      rfl
    · rw [jumpInHand, if_neg hnw, if_neg hpc, ih s hdec]
      rw [List.filter_cons, if_neg (by simp [hpc])]

theorem jumpInLoop_all_decline (playF : Env → Nat → Card → Option PlayRes)
    (card : Card) (pileIdx : Nat) :
    ∀ (ps : List Nat) (s : Env), (∀ j, s.rnd j % 2 = 0) →
      jumpInLoop playF card pileIdx s ps =
        (card_play { s with
          k := s.k + (allOffers s.g card ps).length
          log := s.log ++ allOffers s.g card ps } card pileIdx).map .cont := by
  intro ps
  induction ps with
  | nil =>
    intro s _
    rw [jumpInLoop]
    simp [allOffers]
  | cons i rest ih =>
    intro s hdec
    rw [jumpInLoop]
    by_cases hskip : playerIdxFromTurn s.g (next_turn s.g) = some i ∧ card.isSkip = true
    · rw [if_pos hskip, ih s hdec]
      have hall : allOffers s.g card (i :: rest) = allOffers s.g card rest := by
        simp [allOffers, offersFor, hskip]
      rw [hall]
    · rw [if_neg hskip]
      cases hp : s.g.players.get? i with
      | none =>
        dsimp only
        rw [ih s hdec]
        have hp2 : s.g.players[i]? = none := by
          rw [← List.get?_eq_getElem?]
          exact hp
        have hall : allOffers s.g card (i :: rest) = allOffers s.g card rest := by
          simp [allOffers, List.flatMap_cons, offersFor, if_neg hskip, hp, hp2]
        rw [hall]
      | some p =>
        dsimp only
        have hp2 : s.g.players[i]? = some p := by
          rw [← List.get?_eq_getElem?]
          exact hp
        cases hw : (card.isWild || card.isDrawFour) with
        | true =>
          rw [jumpInHand_wild_d4 playF card pileIdx i p.name hw p.hand s]
          dsimp only
          rw [ih s hdec]
          have hall : allOffers s.g card (i :: rest) = allOffers s.g card rest := by
            have hw2 : card.isWild = true ∨ card.isDrawFour = true := by
              rcases Bool.or_eq_true_iff.mp hw with h | h
              · exact Or.inl h
              · exact Or.inr h
            simp [allOffers, List.flatMap_cons, offersFor, if_neg hskip, hp, hp2, hw, hw2]
          rw [hall]
        | false =>
          rw [jumpInHand_all_decline playF card pileIdx i p.name hw p.hand s hdec]
          dsimp only
          set cnt := (p.hand.filter (fun pc => pc == card)).length with hcnt
          rw [ih { s with
            k := s.k + cnt
            log := s.log ++ List.replicate cnt p.name } hdec]
          have hoff : offersFor s.g card i = List.replicate cnt p.name := by
            rw [offersFor, if_neg hskip]
            simp only [hp]
            simp [hw, List.map_const', hcnt]
          have hall : allOffers s.g card (i :: rest) =
              List.replicate cnt p.name ++ allOffers s.g card rest := by
            rw [allOffers, List.flatMap_cons, hoff]
            rfl
          have hk2 : s.k + cnt + (allOffers s.g card rest).length =
              s.k + (List.replicate cnt p.name ++ allOffers s.g card rest).length := by
            simp only [List.length_append, List.length_replicate]
            omega
          have hlog2 : (s.log ++ List.replicate cnt p.name) ++ allOffers s.g card rest =
              s.log ++ (List.replicate cnt p.name ++ allOffers s.g card rest) :=
            List.append_assoc _ _ _
          rw [hall, ← hk2, ← hlog2]

theorem mem_allOffers (g : GameState) (card : Card) (nm : Nat) :
    nm ∈ allOffers g card (List.range g.players.length) ↔
      ∃ i p, g.players.get? i = some p ∧ p.name = nm ∧
        card.isWild = false ∧ card.isDrawFour = false ∧
        ¬(playerIdxFromTurn g (next_turn g) = some i ∧ card.isSkip = true) ∧
        card ∈ p.hand := by
  rw [allOffers, List.mem_flatMap]
  constructor
  · rintro ⟨i, hi, hmem⟩
    rw [offersFor] at hmem
    by_cases hskip : playerIdxFromTurn g (next_turn g) = some i ∧ card.isSkip = true
    · rw [if_pos hskip] at hmem
      simp at hmem
    · rw [if_neg hskip] at hmem
      cases hp : g.players.get? i with
      | none => rw [hp] at hmem; simp at hmem
      | some p =>
        rw [hp] at hmem
        dsimp only at hmem
        cases hw : (card.isWild || card.isDrawFour) with
        | true => rw [if_pos hw] at hmem; simp at hmem
        | false =>
          rw [if_neg (by simp [hw])] at hmem
          rw [List.mem_map] at hmem
          obtain ⟨pc, hpcm, hnm⟩ := hmem
          have hsplit := List.mem_filter.mp hpcm
          have heq : pc = card := by simpa using hsplit.2
          have hw2 := Bool.or_eq_false_iff.mp hw
          exact ⟨i, p, hp, hnm, hw2.1, hw2.2, hskip, heq ▸ hsplit.1⟩
  · rintro ⟨i, p, hp, hnm, hw1, hw2, hskip, hcmem⟩
    refine ⟨i, ?_, ?_⟩
    · rw [List.mem_range]
      exact (List.get?_eq_some.mp hp).1
    · rw [offersFor, if_neg hskip, hp]
      dsimp only
      rw [if_neg (by simp [hw1, hw2]), List.mem_map]
      exact ⟨card, List.mem_filter.mpr ⟨hcmem, by simp⟩, hnm⟩

/-- **C2 (amended).**  In a `play_jump_in` scan in which every offer is
declined, the play resolves through `card.play()` at the end of the loop,
and the players logged as offered are exactly those holding a card equal
to the played one — with the player about to take the next turn excluded
*only when the played card is a Skip* (for any other card the next-turn
player is offered too), and with no offers at all for a Wild or
DrawFour. -/
theorem C2_jump_in_offers (playF : Env → Nat → Card → Option PlayRes)
    (card : Card) (pileIdx : Nat) (s : Env) (hdec : ∀ j, s.rnd j % 2 = 0) :
    jumpInLoop playF card pileIdx s (List.range s.g.players.length) =
      (card_play { s with
        k := s.k + (allOffers s.g card (List.range s.g.players.length)).length
        log := s.log ++ allOffers s.g card (List.range s.g.players.length) }
        card pileIdx).map .cont ∧
    ∀ nm, nm ∈ allOffers s.g card (List.range s.g.players.length) ↔
      ∃ i p, s.g.players.get? i = some p ∧ p.name = nm ∧
        card.isWild = false ∧ card.isDrawFour = false ∧
        ¬(playerIdxFromTurn s.g (next_turn s.g) = some i ∧ card.isSkip = true) ∧
        card ∈ p.hand :=
  ⟨jumpInLoop_all_decline playF card pileIdx _ s hdec,
    fun nm => mem_allOffers s.g card nm⟩

/-- The played card of the C2 scenarios: a red 5. -/
def c2card : Card := ⟨.numbered 5, some .Red⟩

/-- The C2 scenario: player 1 has just played the red 5 (on the pile);
player 2 — the next-turn player — holds an equal red 5; the oracle
declines every offer. -/
def s2 : Env :=
  ⟨{ players := [⟨1, false, [⟨.numbered 9, some .Green⟩]⟩,
      ⟨2, false, [⟨.numbered 5, some .Red⟩]⟩]
     deck := []
     pile := [⟨.numbered 5, some .Red⟩]
     turn := 1
     spin := 1
     jump_in := true
     stacking := false
     seven_zero := false },
    fun _ => 0, 0, []⟩

/-- Witness for the amended C2 at the concrete scenario `s2`. -/
theorem C2_witness :
    jumpInLoop (fun _ _ _ => none) c2card 1 s2 (List.range s2.g.players.length) =
      (card_play { s2 with
        k := s2.k + (allOffers s2.g c2card (List.range s2.g.players.length)).length
        log := s2.log ++ allOffers s2.g c2card (List.range s2.g.players.length) }
        c2card 1).map .cont ∧
    ∀ nm, nm ∈ allOffers s2.g c2card (List.range s2.g.players.length) ↔
      ∃ i p, s2.g.players.get? i = some p ∧ p.name = nm ∧
        c2card.isWild = false ∧ c2card.isDrawFour = false ∧
        ¬(playerIdxFromTurn s2.g (next_turn s2.g) = some i ∧ c2card.isSkip = true) ∧
        c2card ∈ p.hand :=
  C2_jump_in_offers (fun _ _ _ => none) c2card 1 s2 (fun _ => rfl)

/-- The eligibility rule exactly as the claim words it (for comparison
with the code): players holding an equal card are offered, the next-turn
player is excluded — except that for a Skip the next-turn player is
eligible — and Wild/DrawFour admit no offers. -/
def claimEligible (g : GameState) (card : Card) (i : Nat) : Bool :=
  match g.players.get? i with
  | none => false
  | some p =>
    !(card.isWild || card.isDrawFour) &&
      (!(playerIdxFromTurn g (next_turn g) == some i) || card.isSkip) &&
      p.hand.contains card

/-- **C2 (counterexample).**  In `s2` the engine offers the jump-in to
player 2 — the next-turn player — on a played card that is *not* a Skip
(the offer log of the scan is `[2]`), while the claim's rule makes that
player ineligible (`claimEligible` is `false`).  The code's skip
exception is the exact inverse of the claimed one: the `continue`
excluding the next-turn player fires only when the card *is* a Skip. -/
theorem C2_counterexample :
    (match jumpInLoop (fun _ _ _ => none) c2card 1 s2
        (List.range s2.g.players.length) with
      | some (.cont s) => some s.log
      | _ => none) = some [2] ∧
    claimEligible s2.g c2card 1 = false := by
  constructor <;> decide

end Uno
